import Mathlib

/-!
Verification of the Rosetta account-balance pipeline
(`crates/aptos-rosetta/src/account.rs`): a shallow embedding of
`get_balances`, `convert_balances_to_amounts` and `CoinCache::get_currency`
/ `get_currency_inner`, together with theorems about the balance
projection, the currency cache and its error handling.

Machine integers (`u64`, account addresses) are embedded as `Nat`; the
only arithmetic performed on them in the source is decimal/hex printing,
so no overflow modelling is needed.  The REST client is embedded as an
oracle (a pair of functions); the JSON payloads it returns are embedded
as a small value type together with the two `serde` parses the source
performs on them (`Balance`, `CoinInfo`).
-/

set_option autoImplicit false

namespace RosettaAccount

mutual

/-- Embedding of `move_types::language_storage::TypeTag` (the `StructTag`
fields `address`, `module`, `name`, `type_params` are inlined into the
`struct` constructor; addresses are `Nat`).  The parameter list is spelled
out as the isomorphic mutual type `TypeTagList` so that decidable equality
(the source's derived structural `PartialEq`) is available. -/
inductive TypeTag where
  | bool : TypeTag
  | u8 : TypeTag
  | u64 : TypeTag
  | u128 : TypeTag
  | address : TypeTag
  | signer : TypeTag
  | vector : TypeTag → TypeTag
  | struct : Nat → String → String → TypeTagList → TypeTag
  deriving DecidableEq, Repr

/-- Embedding of `Vec<TypeTag>`, spelled out mutually with `TypeTag`. -/
inductive TypeTagList where
  | nil : TypeTagList
  | cons : TypeTag → TypeTagList → TypeTagList
  deriving DecidableEq, Repr

end

/-- Embedding of `Vec::is_empty` on a generic-parameter list. -/
def TypeTagList.isEmpty : TypeTagList → Bool
  | .nil => true
  | .cons _ _ => false

/-- Embedding of `first()` on a generic-parameter list. -/
def TypeTagList.first : TypeTagList → Option TypeTag
  | .nil => none
  | .cons t _ => some t

/-- Embedding of `types::CurrencyMetadata`: carries the canonical Move type string. -/
structure CurrencyMetadata where
  move_type : String
  deriving DecidableEq, Repr

/-- Embedding of `types::Currency`: symbol, decimals and optional metadata; equality is
structural (derived `PartialEq`/`Hash` in the source). -/
structure Currency where
  symbol : String
  decimals : Nat
  metadata : Option CurrencyMetadata
  deriving DecidableEq, Repr

/-- Embedding of `types::Amount`: a decimal-string value together with its currency. -/
structure Amount where
  value : String
  currency : Currency
  deriving DecidableEq, Repr

/-- Embedding of `aptos_rest_client::aptos::Balance` (`{ coin: TestCoin { value: U64 } }`),
flattened to its single `u64` value. -/
structure Balance where
  value : Nat
  deriving DecidableEq, Repr

/-- The `error::ApiError` variants reachable from the embedded code.
`DeserializationFailed` is the variant the source uses for both the
missing-descriptor and the malformed-descriptor failure; `RestError`
stands for a propagated REST-client transport error (`?` on the client
call). -/
inductive ApiError where
  | DeserializationFailed : Option String → ApiError
  | RestError : ApiError
  deriving DecidableEq, Repr

mutual

/-- The `Display` rendering of a `TypeTag` (`move_types`): primitive names,
`vector<T>`, and for structs `0x<hex-address>::<module>::<name>` with a
`<p1, p2, ...>` suffix when generic parameters are present. -/
def TypeTag.toCanonicalString : TypeTag → String
  | .bool => "bool"
  | .u8 => "u8"
  | .u64 => "u64"
  | .u128 => "u128"
  | .address => "address"
  | .signer => "signer"
  | .vector t => "vector<" ++ TypeTag.toCanonicalString t ++ ">"
  | .struct a m n ps =>
    "0x" ++ String.mk (Nat.toDigits 16 a) ++ "::" ++ m ++ "::" ++ n ++
      match ps with
      | .nil => ""
      | .cons p rest =>
        "<" ++ TypeTag.toCanonicalString p ++ TypeTagList.toSuffix rest ++ ">"

/-- Renders the `, p2, p3, ...` tail of a struct's generic-parameter list. -/
def TypeTagList.toSuffix : TypeTagList → String
  | .nil => ""
  | .cons t rest => ", " ++ TypeTag.toCanonicalString t ++ TypeTagList.toSuffix rest

end

/-- The `ENCODE_CHARS` set of `get_currency_inner`: the percent-encoding
crate's `CONTROLS` (C0 controls and DEL) extended with `<` and `>`. -/
def isEncodeChar (c : Char) : Bool :=
  c.toNat < 32 || c.toNat == 127 || c == '<' || c == '>'

/-- Uppercase hexadecimal digit, as emitted by the percent-encoding crate. -/
def hexUpperDigit (n : Nat) : Char :=
  if n < 10 then Char.ofNat (48 + n) else Char.ofNat (55 + n)

/-- Percent-encoding of one character: characters in the encode set become
`%XX`, all others pass through unchanged. -/
def percentEncodeChar (c : Char) : String :=
  if isEncodeChar c then
    String.mk ['%', hexUpperDigit (c.toNat / 16 % 16), hexUpperDigit (c.toNat % 16)]
  else
    String.singleton c

/-- Embedding of `percent_encoding::utf8_percent_encode(..).to_string()` over the
`ENCODE_CHARS` set: the concatenation of the per-character encodings. -/
def utf8_percent_encode (s : String) : String :=
  String.mk (s.toList.flatMap fun c => (percentEncodeChar c).toList)

/-- Modelled from the spec: `common::native_coin_tag` (its defining module
is not among the given sources) — the fixed zero-parameter struct
identifier at the system address denoting the chain's default coin (§3,
"native" constant). -/
def native_coin_tag : TypeTag := .struct 1 "TestCoin" "TestCoin" .nil

/-- Modelled from the spec: `common::native_coin` (not among the given
sources) — the hardcoded Currency returned for the native coin. -/
def native_coin : Currency := { symbol := "TC", decimals := 6, metadata := none }

/-- Modelled from the spec: `types::coin_identifier` (not among the given
sources) — the coin module's name, as in `0x1::Coin::CoinInfo`. -/
def coin_identifier : String := "Coin"

/-- Modelled from the spec: `types::coin_store_identifier` (not among the
given sources) — the coin-store resource name. -/
def coin_store_identifier : String := "CoinStore"

/-- The `name`/`symbol`/`decimals` record `get_currency_inner` deserializes
(local `struct CoinInfo` in the source; `U64` becomes `Nat`). -/
structure CoinInfo where
  name : String
  symbol : String
  decimals : Nat
  deriving DecidableEq, Repr

/-- A JSON resource payload, embedded by the two shapes the code parses out
of it plus a catch-all for payloads matching neither `serde` schema. -/
inductive Payload where
  | coinInfoData : CoinInfo → Payload
  | balanceData : Nat → Payload
  | otherData : Payload
  deriving DecidableEq, Repr

/-- Embedding of `serde_json::from_value::<Balance>` applied to a resource payload. -/
def parseBalance : Payload → Option Balance
  | .balanceData v => some { value := v }
  | _ => none

/-- Embedding of `serde_json::from_value::<CoinInfo>` applied to a resource payload. -/
def parseCoinInfo : Payload → Option CoinInfo
  | .coinInfoData i => some i
  | _ => none

/-- The `resource_type` of a REST account resource (a `MoveStructTag`). -/
structure ResourceType where
  address : Nat
  module : String
  name : String
  type_params : TypeTagList
  deriving DecidableEq, Repr

/-- One resource returned by `get_account_resources_at_version`. -/
structure AccountResource where
  resource_type : ResourceType
  data : Payload
  deriving DecidableEq, Repr

/-- One resource returned by `get_account_resource(_at_version)`. -/
structure Resource where
  data : Payload
  deriving DecidableEq, Repr

/-- A descriptor-resource read: the arguments of
`get_account_resource_at_version address tag version` (or
`get_account_resource address tag` when `version = none`, the "latest"
read — the two client methods are one oracle keyed by the optional
version). -/
structure ReadRequest where
  address : Nat
  resource_tag : String
  version : Option Nat
  deriving DecidableEq, Repr

/-- Decidable equality of `Except` results, for evaluating the embedded
functions at concrete inputs. -/
instance {ε α : Type} [DecidableEq ε] [DecidableEq α] : DecidableEq (Except ε α) :=
  fun a b =>
  match a, b with
  | .error e1, .error e2 => decidable_of_iff (e1 = e2) (by simp)
  | .ok v1, .ok v2 => decidable_of_iff (v1 = v2) (by simp)
  | .error _, .ok _ => isFalse (by simp)
  | .ok _, .error _ => isFalse (by simp)

/-- The REST client, embedded as a deterministic oracle; `Except.error`
models a failed remote call (the client's `Err`). -/
structure Client where
  account_resources : Nat → Nat → Except Unit (List AccountResource)
  account_resource : ReadRequest → Except Unit (Option Resource)

/-- The map `HashMap<TypeTag, Option<Currency>>` inside `CoinCache`,
embedded as an association list whose lookup takes the first binding and
whose insert replaces any existing binding. -/
abbrev CoinCacheMap := List (TypeTag × Option Currency)

/-- Embedding of `HashMap::get` on the cache map. -/
def cacheGet (m : CoinCacheMap) (coin : TypeTag) : Option (Option Currency) :=
  (m.find? (fun p => p.1 == coin)).map (·.2)

/-- Embedding of `HashMap::insert` on the cache map. -/
def cacheInsert (m : CoinCacheMap) (coin : TypeTag) (v : Option Currency) :
    CoinCacheMap :=
  (coin, v) :: m.filter (fun p => !(p.1 == coin))

/-- Events recorded along one `get_currency` call: the `RwLock` read/write
guard acquisitions and releases, and each remote descriptor read. -/
inductive Event where
  | readLockAcquire : Event
  | readLockRelease : Event
  | writeLockAcquire : Event
  | writeLockRelease : Event
  | remoteRead : ReadRequest → Event
  deriving DecidableEq, Repr

/-- Result of one `CoinCache::get_currency` call: the returned
`ApiResult<Option<Currency>>`, the cache map after the call, and the
ordered trace of lock and remote-read events the call performed. -/
structure CurrencyOutcome where
  result : Except ApiError (Option Currency)
  cache : CoinCacheMap
  events : List Event
  deriving Repr

/-- The descriptor read `get_currency_inner` issues for an eligible struct
coin at address `a`: the percent-encoded `0x1::Coin::CoinInfo<coin>` tag,
pinned to the optional version. -/
def descriptorReadRequest (a : Nat) (coin : TypeTag) (version : Option Nat) :
    ReadRequest :=
  { address := a
    resource_tag := utf8_percent_encode ("0x1::Coin::CoinInfo<" ++
      coin.toCanonicalString ++ ">")
    version := version }

namespace CoinCache

/-- Embedding of `CoinCache::get_currency_inner`: skip (`Ok(None)`) non-struct coins and
structs with generic parameters; otherwise build and percent-encode the
`0x1::Coin::CoinInfo<coin>` resource tag, read it at the coin's address
(pinned to `version` when given), and turn the response into a Currency
(present + parses), a `DeserializationFailed` "failed to deserialize"
error (present + no parse), or a `DeserializationFailed` "not found"
error (absent).  Returns the `ApiResult` along with the list of remote
reads performed (zero or one). -/
def get_currency_inner (client : Client) (coin : TypeTag) (version : Option Nat) :
    Except ApiError (Option Currency) × List ReadRequest :=
  match coin with
  | .struct address _ _ type_params =>
    -- Nested types are not supported for now
    if !type_params.isEmpty then
      (.ok none, [])
    else
      let resource_tag := "0x1::Coin::CoinInfo<" ++ coin.toCanonicalString ++ ">"
      let encoded_resource_tag := utf8_percent_encode resource_tag
      let req : ReadRequest :=
        { address := address, resource_tag := encoded_resource_tag, version := version }
      let result : Except ApiError (Option Currency) :=
        match client.account_resource req with
        | .error _ => .error .RestError
        | .ok (some resource) =>
          match parseCoinInfo resource.data with
          | some coin_info =>
            .ok (some
              { symbol := coin_info.symbol
                decimals := coin_info.decimals
                metadata := some { move_type := resource_tag } })
          | none =>
            .error (.DeserializationFailed (some
              ("CoinInfo failed to deserialize for " ++ coin.toCanonicalString)))
        | .ok none =>
          .error (.DeserializationFailed (some
            ("Currency " ++ coin.toCanonicalString ++ " not found")))
      (result, [req])
  -- This is a poorly formed coin, and we'll just skip over it
  | _ => (.ok none, [])

/-- Embedding of `CoinCache::get_currency`: native-coin fast path, then cache lookup
under the read lock, then (on a miss) the remote resolution followed by an
insertion under the write lock; on an error from the inner resolution the
cache is left unchanged.  `currencies` is the cache map guarded by the
`RwLock` in the source. -/
def get_currency (client : Client) (currencies : CoinCacheMap) (coin : TypeTag)
    (version : Option Nat) : CurrencyOutcome :=
  -- Short circuit for the default coin
  if coin = native_coin_tag then
    { result := .ok (some native_coin), cache := currencies, events := [] }
  else
    match cacheGet currencies coin with
    | some currency =>
      { result := .ok currency
        cache := currencies
        events := [.readLockAcquire, .readLockRelease] }
    | none =>
      match get_currency_inner client coin version with
      | (.error e, reads) =>
        { result := .error e
          cache := currencies
          events := [.readLockAcquire, .readLockRelease] ++ reads.map .remoteRead }
      | (.ok currency, reads) =>
        { result := .ok currency
          cache := cacheInsert currencies coin currency
          events := [.readLockAcquire, .readLockRelease] ++ reads.map .remoteRead
            ++ [.writeLockAcquire, .writeLockRelease] }

end CoinCache

/-- The iterator of `get_balances`'s success branch, before the final
`collect`: keep the resources whose type is `0x1::<coin>::<coin-store>`,
take each one's first generic parameter as the coin type and parse its
payload as a Balance (dropping resources with no parameter or an
unparsable payload), in response order. -/
def coinStoreEntries (response : List AccountResource) : List (TypeTag × Balance) :=
  (response.filter (fun resource =>
      resource.resource_type.address == 1 &&
      resource.resource_type.module == coin_identifier &&
      resource.resource_type.name == coin_store_identifier)).filterMap
    (fun resource =>
      -- Currency must have a type
      match resource.resource_type.type_params.first with
      | some coin_type =>
        match parseBalance resource.data with
        | some balance => some (coin_type, balance)
        | none => none
      -- Skip currencies that don't match
      | none => none)

/-- Embedding of `HashMap::insert` on the balances map (replacing any
existing binding of the key). -/
def balancesInsert (m : List (TypeTag × Balance)) (coin : TypeTag) (v : Balance) :
    List (TypeTag × Balance) :=
  (coin, v) :: m.filter (fun p => !(p.1 == coin))

/-- Embedding of `HashMap::get` on the balances map. -/
def balancesGet (m : List (TypeTag × Balance)) (coin : TypeTag) : Option Balance :=
  (m.find? (fun p => p.1 == coin)).map Prod.snd

/-- Embedding of `Iterator::collect::<HashMap<TypeTag, Balance>>()`: the
pairs are inserted in iteration order, a later pair overwriting any
earlier binding of the same key. -/
def collectBalances (entries : List (TypeTag × Balance)) : List (TypeTag × Balance) :=
  entries.foldl (fun m p => balancesInsert m p.1 p.2) []

/-- The success branch of `get_balances`: the coin-store entries collected
into the balances map. -/
def coinStoreBalances (response : List AccountResource) : List (TypeTag × Balance) :=
  collectBalances (coinStoreEntries response)

/-- Embedding of `get_balances`: read all resources of the account at `version` and
extract the coin-store balances; on a failed remote read return the single
zero balance for the native coin instead of an error. -/
def get_balances (client : Client) (address : Nat) (version : Nat) :
    Except ApiError (List (TypeTag × Balance)) :=
  match client.account_resources address version with
  | .ok response => .ok (coinStoreBalances response)
  | .error _ =>
    .ok [(native_coin_tag, { value := 0 })]

/-- The per-balance loop of `convert_balances_to_amounts`: resolve each
coin through the cache (threading the shared cache map), emit an Amount
for each `Some` currency, and propagate the first resolution error. -/
def lookupAmounts (client : Client) (balance_version : Nat) :
    List (TypeTag × Balance) → CoinCacheMap →
    Except ApiError (List Amount) × CoinCacheMap
  | [], currencies => (.ok [], currencies)
  | (coin, balance) :: rest, currencies =>
    let out := CoinCache.get_currency client currencies coin (some balance_version)
    match out.result with
    | .error e => (.error e, out.cache)
    | .ok none => lookupAmounts client balance_version rest out.cache
    | .ok (some currency) =>
      match lookupAmounts client balance_version rest out.cache with
      | (.error e, cache') => (.error e, cache')
      | (.ok amounts, cache') =>
        (.ok ({ value := Nat.repr balance.value, currency := currency } :: amounts),
          cache')

/-- The filter/zero-fill stage of `convert_balances_to_amounts` (the body
of `if let Some(currencies) = maybe_filter_currencies`).  The `HashSet`
collected from the requested currencies is embedded as the deduplicated
list. -/
def filterAmounts (requested : List Currency) (amounts : List Amount) : List Amount :=
  let currencies := requested.dedup
  -- Remove extra currencies not requested
  let kept := amounts.filter (fun amount => currencies.contains amount.currency)
  -- Zero out currencies that weren't in the account yet
  let remaining := currencies.filter
    (fun currency => !(kept.any (fun amount => amount.currency == currency)))
  kept ++ remaining.map (fun currency => { value := Nat.repr 0, currency := currency })

/-- Embedding of `convert_balances_to_amounts`: look up a currency for every balance
(dropping `None` resolutions, propagating errors), then apply the optional
currency filter with zero-fill.  The second component is the cache map
after the call (the shared `CoinCache` is threaded through). -/
def convert_balances_to_amounts (client : Client) (coin_cache : CoinCacheMap)
    (maybe_filter_currencies : Option (List Currency))
    (balances : List (TypeTag × Balance)) (balance_version : Nat) :
    Except ApiError (List Amount) × CoinCacheMap :=
  match lookupAmounts client balance_version balances coin_cache with
  | (.error e, cache') => (.error e, cache')
  | (.ok amounts, cache') =>
    match maybe_filter_currencies with
    | none => (.ok amounts, cache')
    | some currencies => (.ok (filterAmounts currencies amounts), cache')

/-- Whether a trace event is a remote descriptor read. -/
def Event.isRemoteRead : Event → Bool
  | .remoteRead _ => true
  | _ => false

/-- Whether a trace event is a write-lock acquisition. -/
def Event.isWriteLockAcquire : Event → Bool
  | .writeLockAcquire => true
  | _ => false

/-- Number of remote descriptor reads recorded in a trace. -/
def remoteReadCount (events : List Event) : Nat :=
  events.countP Event.isRemoteRead

/-- Checks that every remote read in the trace happens while no lock guard
is held (`r` and `w` count the read and write guards currently held). -/
def locksFreeAtRemoteReads : List Event → Nat → Nat → Bool
  | [], _, _ => true
  | .readLockAcquire :: rest, r, w => locksFreeAtRemoteReads rest (r + 1) w
  | .readLockRelease :: rest, r, w => locksFreeAtRemoteReads rest (r - 1) w
  | .writeLockAcquire :: rest, r, w => locksFreeAtRemoteReads rest r (w + 1)
  | .writeLockRelease :: rest, r, w => locksFreeAtRemoteReads rest r (w - 1)
  | .remoteRead _ :: rest, r, w => r == 0 && w == 0 && locksFreeAtRemoteReads rest r w

/-- Checks that no remote read occurs at or after the first write-lock
acquisition in the trace. -/
def noRemoteReadAfterWriteLock (events : List Event) : Bool :=
  (events.dropWhile (fun e => !e.isWriteLockAcquire)).all (fun e => !e.isRemoteRead)

/-! ### Concrete fixtures used by witnesses and counterexamples -/

/-- A zero-parameter struct coin type distinct from the native constant. -/
def coinA : TypeTag := .struct 2 "coin" "A" .nil

/-- A second zero-parameter struct coin type. -/
def coinB : TypeTag := .struct 3 "coin" "B" .nil

/-- A client-side currency value (no metadata). -/
def curC : Currency := { symbol := "C", decimals := 2, metadata := none }

/-- A client whose every remote call fails. -/
def clientUnavailable : Client :=
  { account_resources := fun _ _ => .error ()
    account_resource := fun _ => .error () }

/-- A coin-store resource whose type carries two generic parameters. -/
def storeResourceMulti : AccountResource :=
  { resource_type :=
      { address := 1
        module := coin_identifier
        name := coin_store_identifier
        type_params := .cons .u8 (.cons .u64 .nil) }
    data := .balanceData 5 }

/-- A client serving exactly the two-parameter coin-store resource. -/
def clientMultiStore : Client :=
  { account_resources := fun _ _ => .ok [storeResourceMulti]
    account_resource := fun _ => .error () }

/-- A second coin-store resource sharing `storeResourceMulti`'s first
generic parameter but differing in its full type and value. -/
def storeResourceMulti2 : AccountResource :=
  { resource_type :=
      { address := 1
        module := coin_identifier
        name := coin_store_identifier
        type_params := .cons .u8 (.cons .bool .nil) }
    data := .balanceData 9 }

/-- A client serving two coin-store resources whose first generic
parameters coincide, so the collected map keeps only the later one. -/
def clientTwoStores : Client :=
  { account_resources := fun _ _ => .ok [storeResourceMulti, storeResourceMulti2]
    account_resource := fun _ => .error () }

/-- A client serving a well-formed coin descriptor for every resource read. -/
def clientCoinInfo : Client :=
  { account_resources := fun _ _ => .error ()
    account_resource := fun _ =>
      .ok (some { data := .coinInfoData { name := "A", symbol := "AC", decimals := 3 } }) }

/-- A client whose resource reads succeed but find nothing. -/
def clientMissingDescriptor : Client :=
  { account_resources := fun _ _ => .error ()
    account_resource := fun _ => .ok none }

/-- A client serving a payload that does not parse as a coin descriptor. -/
def clientMalformedDescriptor : Client :=
  { account_resources := fun _ _ => .error ()
    account_resource := fun _ => .ok (some { data := .otherData }) }

/-- A cache in which two distinct coin types resolve to the same currency. -/
def dupCache : CoinCacheMap := [(coinA, some curC), (coinB, some curC)]

/-- A struct coin type carrying a nested generic parameter. -/
def coinNested : TypeTag := .struct 2 "coin" "Wrapped" (.cons .u8 .nil)

/-- Balances for the two coin types of `dupCache`. -/
def dupBalances : List (TypeTag × Balance) :=
  [(coinA, { value := 10 }), (coinB, { value := 7 })]

/-! ### Theorems -/

/-- C5: for every version argument (and any client and cache state),
`get_currency` on the native coin type identifier returns `Some` of the
constant native Currency, records no remote descriptor read and no lock
event (the empty trace), and leaves the cache untouched. -/
theorem c5_native_fast_path (client : Client) (currencies : CoinCacheMap)
    (version : Option Nat) :
    (CoinCache.get_currency client currencies native_coin_tag version).result =
        Except.ok (some native_coin) ∧
      (CoinCache.get_currency client currencies native_coin_tag version).events = [] ∧
      (CoinCache.get_currency client currencies native_coin_tag version).cache =
        currencies := by
  refine ⟨?_, ?_, ?_⟩ <;> simp [CoinCache.get_currency]

/-- C4: when the remote read of the account's resources fails,
`get_balances` returns `Ok` with exactly the one zero balance for the
native coin type, and projecting that map with no filter yields exactly
one zero-value amount for the native currency. -/
theorem c4_remote_failure_zero_fallback (client : Client) (address version : Nat)
    (coin_cache : CoinCacheMap) (balance_version : Nat)
    (h : client.account_resources address version = .error ()) :
    get_balances client address version =
        Except.ok [(native_coin_tag, { value := 0 })] ∧
      (convert_balances_to_amounts client coin_cache none
          [(native_coin_tag, { value := 0 })] balance_version).1 =
        Except.ok [{ value := "0", currency := native_coin }] := by
  constructor
  · simp [get_balances, h]
  · simp [convert_balances_to_amounts, lookupAmounts, CoinCache.get_currency, Nat.repr]
    decide

/-- Witness for C4 at a concrete failing client. -/
theorem c4_remote_failure_zero_fallback_witness :
    get_balances clientUnavailable 7 3 =
        Except.ok [(native_coin_tag, { value := 0 })] ∧
      (convert_balances_to_amounts clientUnavailable [] none
          [(native_coin_tag, { value := 0 })] 3).1 =
        Except.ok [{ value := "0", currency := native_coin }] :=
  c4_remote_failure_zero_fallback clientUnavailable 7 3 [] 3 rfl

/-- Remote reads leave the held-guard counters unchanged and succeed when
no guard is held. -/
theorem locksFree_map_remote (reads : List ReadRequest) (rest : List Event) :
    locksFreeAtRemoteReads (reads.map Event.remoteRead ++ rest) 0 0 =
      locksFreeAtRemoteReads rest 0 0 := by
  induction reads with
  | nil => rfl
  | cons r rs ih => simp [locksFreeAtRemoteReads, ih]

/-- Variant of `locksFree_map_remote` with nothing after the reads. -/
theorem locksFree_map_remote_nil (reads : List ReadRequest) :
    locksFreeAtRemoteReads (reads.map Event.remoteRead) 0 0 = true := by
  have h := locksFree_map_remote reads []
  simp only [List.append_nil, locksFreeAtRemoteReads] at h
  exact h

/-- Dropping up to the first write-lock acquisition skips all remote
reads. -/
theorem dropWhile_map_remote (reads : List ReadRequest) (rest : List Event) :
    ((reads.map Event.remoteRead ++ rest).dropWhile fun e => !e.isWriteLockAcquire) =
      rest.dropWhile (fun e => !e.isWriteLockAcquire) := by
  induction reads with
  | nil => rfl
  | cons r rs ih => simp [List.dropWhile, Event.isWriteLockAcquire, ih]

/-- C9: along every `get_currency` call, every remote descriptor read in
the trace happens with no read or write guard held (the read guard is
released before the inner resolution is awaited), and no remote read
occurs at or after the write-lock acquisition (the write lock is taken
only after the remote work, for the in-memory insertion). -/
theorem c9_no_lock_across_remote_read (client : Client) (currencies : CoinCacheMap)
    (coin : TypeTag) (version : Option Nat) :
    locksFreeAtRemoteReads
        (CoinCache.get_currency client currencies coin version).events 0 0 = true ∧
      noRemoteReadAfterWriteLock
        (CoinCache.get_currency client currencies coin version).events = true := by
  unfold CoinCache.get_currency
  by_cases hnat : coin = native_coin_tag
  · simp [hnat, locksFreeAtRemoteReads, noRemoteReadAfterWriteLock]
  · simp only [if_neg hnat]
    cases hc : cacheGet currencies coin with
    | some c =>
      simp [locksFreeAtRemoteReads, noRemoteReadAfterWriteLock, List.dropWhile,
        Event.isWriteLockAcquire]
    | none =>
      rcases hi : CoinCache.get_currency_inner client coin version with ⟨res, reads⟩
      cases res with
      | error e =>
        have h0 : ((reads.map Event.remoteRead).dropWhile fun e => !e.isWriteLockAcquire)
            = [] := by
          have h := dropWhile_map_remote reads []
          simpa using h
        constructor
        · simpa [locksFreeAtRemoteReads] using locksFree_map_remote_nil reads
        · show (((reads.map Event.remoteRead).dropWhile fun e => !e.isWriteLockAcquire).all
              fun e => !e.isRemoteRead) = true
          rw [h0]
          rfl
      | ok currency =>
        have h0 := dropWhile_map_remote reads
          [Event.writeLockAcquire, Event.writeLockRelease]
        constructor
        · have h := locksFree_map_remote reads
            [Event.writeLockAcquire, Event.writeLockRelease]
          simpa [locksFreeAtRemoteReads] using h
        · show ((((reads.map Event.remoteRead) ++
                    [Event.writeLockAcquire, Event.writeLockRelease]).dropWhile
                  fun e => !e.isWriteLockAcquire).all
              fun e => !e.isRemoteRead) = true
          rw [h0]
          rfl

/-- Unfolds `get_currency_inner` on an eligible (zero-parameter struct)
coin: exactly one remote read, the descriptor read request, is issued, and
the result is the four-way case split on the response. -/
theorem get_currency_inner_struct (client : Client) (a : Nat) (m n : String)
    (version : Option Nat) :
    CoinCache.get_currency_inner client (TypeTag.struct a m n .nil) version =
      (match client.account_resource
          (descriptorReadRequest a (TypeTag.struct a m n .nil) version) with
        | .error _ => .error .RestError
        | .ok (some resource) =>
          match parseCoinInfo resource.data with
          | some coin_info =>
            .ok (some
              { symbol := coin_info.symbol
                decimals := coin_info.decimals
                metadata := some { move_type := "0x1::Coin::CoinInfo<" ++
                  (TypeTag.struct a m n TypeTagList.nil).toCanonicalString ++ ">" } })
          | none =>
            .error (.DeserializationFailed (some
              ("CoinInfo failed to deserialize for " ++
                (TypeTag.struct a m n TypeTagList.nil).toCanonicalString)))
        | .ok none =>
          .error (.DeserializationFailed (some
            ("Currency " ++ (TypeTag.struct a m n TypeTagList.nil).toCanonicalString ++
              " not found"))),
        [descriptorReadRequest a (TypeTag.struct a m n .nil) version]) := rfl

/-- No hexadecimal digit emitted by the encoder lies in the encode set. -/
theorem hexUpperDigit_not_encodeChar : ∀ k, k < 16 → isEncodeChar (hexUpperDigit k) = false := by
  decide

/-- The output of the percent encoder contains no character of the encode
set (in particular neither `<` nor `>`). -/
theorem encodeChar_not_mem_encoded (s : String) (c : Char)
    (hc : isEncodeChar c = true) : c ∉ (utf8_percent_encode s).toList := by
  intro hmem
  have hmem' : c ∈ s.toList.flatMap fun a => (percentEncodeChar a).toList := hmem
  rcases List.mem_flatMap.mp hmem' with ⟨a, _, hca⟩
  by_cases h : isEncodeChar a
  · rw [percentEncodeChar, if_pos h] at hca
    have hca' : c ∈ ['%', hexUpperDigit (a.toNat / 16 % 16),
        hexUpperDigit (a.toNat % 16)] := hca
    have h1 := hexUpperDigit_not_encodeChar (a.toNat / 16 % 16) (Nat.mod_lt _ (by norm_num))
    have h2 := hexUpperDigit_not_encodeChar (a.toNat % 16) (Nat.mod_lt _ (by norm_num))
    have hpct : isEncodeChar '%' = false := by decide
    simp only [List.mem_cons, List.not_mem_nil, or_false] at hca'
    rcases hca' with hca' | hca' | hca'
    · rw [hca'] at hc; rw [hc] at hpct; cases hpct
    · rw [hca'] at hc; rw [hc] at h1; cases h1
    · rw [hca'] at hc; rw [hc] at h2; cases h2
  · rw [percentEncodeChar, if_neg h] at hca
    have hca' : c ∈ [a] := hca
    simp only [List.mem_singleton] at hca'
    rw [hca'] at hc
    exact h hc

/-- C8: for every eligible struct coin type, `get_currency_inner` issues
exactly one remote read: at the coin's own origin address, for the
percent-encoded `0x1::Coin::CoinInfo<coin>` resource path, pinned to the
supplied optional version (`none` meaning the latest-state read).  The
encoder maps `<` to `%3C` and `>` to `%3E`, and the transported path
contains no unencoded reserved character. -/
theorem c8_descriptor_read_construction (client : Client) (a : Nat) (m n : String)
    (version : Option Nat) :
    (CoinCache.get_currency_inner client (TypeTag.struct a m n .nil) version).2 =
        [{ address := a
           resource_tag := utf8_percent_encode ("0x1::Coin::CoinInfo<" ++
             (TypeTag.struct a m n TypeTagList.nil).toCanonicalString ++ ">")
           version := version }] ∧
      percentEncodeChar '<' = "%3C" ∧
      percentEncodeChar '>' = "%3E" ∧
      (∀ c : Char, isEncodeChar c = true →
        c ∉ ((CoinCache.get_currency_inner client
          (TypeTag.struct a m n .nil) version).2.map
            ReadRequest.resource_tag).foldr (fun t l => t.toList ++ l) []) := by
  refine ⟨by rw [get_currency_inner_struct]; rfl, by decide, by decide, ?_⟩

  intro c hc
  rw [get_currency_inner_struct]
  intro hmem
  simp only [List.map_cons, List.map_nil, List.foldr_cons, List.foldr_nil,
    List.append_nil, descriptorReadRequest] at hmem
  exact encodeChar_not_mem_encoded _ c hc hmem

/-- C7: a coin type identifier that is not a zero-parameter struct (either
not a struct at all, or a struct with generic parameters of its own) is
resolved to `Ok(None)` with no remote read and no error, and the
projection drops its balance from the output. -/
theorem c7_unsupported_coin_skipped (client : Client) (currencies : CoinCacheMap)
    (coin : TypeTag) (version : Option Nat) (balance : Balance) (balance_version : Nat)
    (h : ∀ a m n, coin ≠ TypeTag.struct a m n TypeTagList.nil)
    (hcache : cacheGet currencies coin = none) :
    CoinCache.get_currency_inner client coin version = (Except.ok none, []) ∧
      (CoinCache.get_currency client currencies coin version).result = Except.ok none ∧
      remoteReadCount (CoinCache.get_currency client currencies coin version).events = 0 ∧
      (convert_balances_to_amounts client currencies none [(coin, balance)]
          balance_version).1 = Except.ok [] := by
  have hne : coin ≠ native_coin_tag := h 1 "TestCoin" "TestCoin"
  have hinner : ∀ v : Option Nat,
      CoinCache.get_currency_inner client coin v = (Except.ok none, []) := by
    intro v
    cases coin
    case struct a m n ps =>
      cases ps with
      | nil => exact absurd rfl (h a m n)
      | cons p rest => rfl
    all_goals rfl
  refine ⟨hinner version, ?_, ?_, ?_⟩
  · simp [CoinCache.get_currency, hne, hcache, hinner version]
  · simp [CoinCache.get_currency, hne, hcache, hinner version, remoteReadCount,
      Event.isRemoteRead]
  · simp [convert_balances_to_amounts, lookupAmounts, CoinCache.get_currency, hne,
      hcache, hinner balance_version]

/-- Witness for C7 at the nested-generic coin type. -/
theorem c7_unsupported_coin_skipped_witness :
    cacheGet [] coinNested = none ∧
      (CoinCache.get_currency_inner clientCoinInfo coinNested (some 4) =
          (Except.ok none, []) ∧
        (CoinCache.get_currency clientCoinInfo [] coinNested (some 4)).result =
          Except.ok none ∧
        remoteReadCount
          (CoinCache.get_currency clientCoinInfo [] coinNested (some 4)).events = 0 ∧
        (convert_balances_to_amounts clientCoinInfo [] none
            [(coinNested, { value := 9 })] 4).1 = Except.ok []) :=
  ⟨rfl, by
    have h := c7_unsupported_coin_skipped clientCoinInfo [] coinNested (some 4)
      { value := 9 } 4 (fun a m n hh => by simp [coinNested] at hh) rfl
    exact h⟩

/-- On an error result, `get_currency_inner` has performed exactly one
remote read. -/
theorem get_currency_inner_error_reads (client : Client) (coin : TypeTag)
    (version : Option Nat) (e : ApiError)
    (h : (CoinCache.get_currency_inner client coin version).1 = .error e) :
    ∃ r, (CoinCache.get_currency_inner client coin version).2 = [r] := by
  cases coin
  case struct a m n ps =>
    cases ps with
    | nil => exact ⟨_, congrArg Prod.snd (get_currency_inner_struct client a m n version)⟩
    | cons p rest => simp [CoinCache.get_currency_inner, TypeTagList.isEmpty] at h
  all_goals simp [CoinCache.get_currency_inner] at h

/-- C10: when `get_currency` returns an error, the cache is unchanged (no
error outcome is memoized), the failed call did perform a remote read, and
a repeated call behaves identically — in particular it performs the remote
descriptor read again. -/
theorem c10_error_never_cached (client : Client) (currencies : CoinCacheMap)
    (coin : TypeTag) (version : Option Nat) (e : ApiError)
    (h : (CoinCache.get_currency client currencies coin version).result = .error e) :
    (CoinCache.get_currency client currencies coin version).cache = currencies ∧
      1 ≤ remoteReadCount (CoinCache.get_currency client currencies coin version).events ∧
      CoinCache.get_currency client
          (CoinCache.get_currency client currencies coin version).cache coin version =
        CoinCache.get_currency client currencies coin version := by
  by_cases hnat : coin = native_coin_tag
  · simp [CoinCache.get_currency, hnat] at h
  · cases hc : cacheGet currencies coin with
    | some c => simp [CoinCache.get_currency, hnat, hc] at h
    | none =>
      rcases hi : CoinCache.get_currency_inner client coin version with ⟨res, reads⟩
      cases res with
      | ok v => simp [CoinCache.get_currency, hnat, hc, hi] at h
      | error e' =>
        have hr : ∃ r, reads = [r] := by
          have := get_currency_inner_error_reads client coin version e' (by rw [hi])
          rw [hi] at this
          exact this
        rcases hr with ⟨r, hr⟩
        subst hr
        refine ⟨?_, ?_, ?_⟩ <;>
          simp [CoinCache.get_currency, hnat, hc, hi, remoteReadCount, Event.isRemoteRead]

/-- Witness for C10 at a concrete missing-descriptor client. -/
theorem c10_error_never_cached_witness :
    (CoinCache.get_currency clientMissingDescriptor [] coinA (some 5)).cache = [] ∧
      1 ≤ remoteReadCount
        (CoinCache.get_currency clientMissingDescriptor [] coinA (some 5)).events ∧
      CoinCache.get_currency clientMissingDescriptor
          (CoinCache.get_currency clientMissingDescriptor [] coinA (some 5)).cache coinA
          (some 5) =
        CoinCache.get_currency clientMissingDescriptor [] coinA (some 5) :=
  c10_error_never_cached clientMissingDescriptor [] coinA (some 5)
    (.DeserializationFailed (some ("Currency " ++ coinA.toCanonicalString ++ " not found")))
    (by decide)

/-- C3: for an eligible (zero-parameter struct, non-native) coin type, an
absent descriptor resource makes `get_currency_inner` fail the request
with the "Currency ... not found" deserialization error, while a present
but unparsable descriptor makes it fail with the distinct "CoinInfo failed
to deserialize" error; the two error values are never equal, and the
missing-descriptor error propagates out of the balance projection, failing
the whole request rather than yielding a truncated result. -/
theorem c3_missing_and_malformed_errors (client : Client) (a : Nat) (m n : String)
    (version : Option Nat) (currencies : CoinCacheMap) (balance : Balance)
    (balance_version : Nat)
    (hn : TypeTag.struct a m n TypeTagList.nil ≠ native_coin_tag) :
    (client.account_resource
          (descriptorReadRequest a (TypeTag.struct a m n .nil) version) = .ok none →
        (CoinCache.get_currency_inner client (TypeTag.struct a m n .nil) version).1 =
          .error (.DeserializationFailed (some ("Currency " ++
            (TypeTag.struct a m n TypeTagList.nil).toCanonicalString ++ " not found")))) ∧
      (∀ r : Resource,
        client.account_resource
            (descriptorReadRequest a (TypeTag.struct a m n .nil) version) = .ok (some r) →
        parseCoinInfo r.data = none →
        (CoinCache.get_currency_inner client (TypeTag.struct a m n .nil) version).1 =
          .error (.DeserializationFailed (some ("CoinInfo failed to deserialize for " ++
            (TypeTag.struct a m n TypeTagList.nil).toCanonicalString)))) ∧
      (ApiError.DeserializationFailed (some ("Currency " ++
          (TypeTag.struct a m n TypeTagList.nil).toCanonicalString ++ " not found")) ≠
        ApiError.DeserializationFailed (some ("CoinInfo failed to deserialize for " ++
          (TypeTag.struct a m n TypeTagList.nil).toCanonicalString))) ∧
      (cacheGet currencies (TypeTag.struct a m n .nil) = none →
        client.account_resource (descriptorReadRequest a (TypeTag.struct a m n .nil)
          (some balance_version)) = .ok none →
        (convert_balances_to_amounts client currencies none
            [(TypeTag.struct a m n .nil, balance)] balance_version).1 =
          .error (.DeserializationFailed (some ("Currency " ++
            (TypeTag.struct a m n TypeTagList.nil).toCanonicalString ++
              " not found")))) := by
  refine ⟨?_, ?_, ?_, ?_⟩
  · intro h
    rw [get_currency_inner_struct]
    simp [h]
  · intro r h hp
    rw [get_currency_inner_struct]
    simp [h, hp]
  · intro heq
    simp only [ApiError.DeserializationFailed.injEq, Option.some.injEq] at heq
    have h2 := congrArg String.length heq
    simp only [String.length_append] at h2
    have e1 : "Currency ".length = 9 := rfl
    have e2 : " not found".length = 10 := rfl
    have e3 : "CoinInfo failed to deserialize for ".length = 35 := rfl
    rw [e1, e2, e3] at h2
    omega
  · intro hc hres
    simp [convert_balances_to_amounts, lookupAmounts, CoinCache.get_currency, hn, hc,
      get_currency_inner_struct, hres]

/-- Witness for C3: the two error cases at concrete clients, and their
distinctness. -/
theorem c3_missing_and_malformed_errors_witness :
    (CoinCache.get_currency_inner clientMissingDescriptor coinA (some 5)).1 =
        .error (.DeserializationFailed (some ("Currency " ++
          coinA.toCanonicalString ++ " not found"))) ∧
      (CoinCache.get_currency_inner clientMalformedDescriptor coinA (some 5)).1 =
        .error (.DeserializationFailed (some ("CoinInfo failed to deserialize for " ++
          coinA.toCanonicalString))) ∧
      (ApiError.DeserializationFailed (some ("Currency " ++
          coinA.toCanonicalString ++ " not found")) ≠
        ApiError.DeserializationFailed (some ("CoinInfo failed to deserialize for " ++
          coinA.toCanonicalString))) ∧
      (convert_balances_to_amounts clientMissingDescriptor [] none
          [(coinA, { value := 1 })] 5).1 =
        .error (.DeserializationFailed (some ("Currency " ++
          coinA.toCanonicalString ++ " not found"))) :=
  ⟨(c3_missing_and_malformed_errors clientMissingDescriptor 2 "coin" "A" (some 5)
      [] { value := 1 } 5 (by decide)).1 rfl,
    (c3_missing_and_malformed_errors clientMalformedDescriptor 2 "coin" "A" (some 5)
      [] { value := 1 } 5 (by decide)).2.1 { data := .otherData } rfl rfl,
    (c3_missing_and_malformed_errors clientMissingDescriptor 2 "coin" "A" (some 5)
      [] { value := 1 } 5 (by decide)).2.2.1,
    (c3_missing_and_malformed_errors clientMissingDescriptor 2 "coin" "A" (some 5)
      [] { value := 1 } 5 (by decide)).2.2.2 rfl rfl⟩

/-- Looking up a key right after inserting it yields the inserted value. -/
theorem cacheGet_insert_self (m : CoinCacheMap) (coin : TypeTag) (v : Option Currency) :
    cacheGet (cacheInsert m coin v) coin = some v := by
  simp [cacheGet, cacheInsert]

/-- C6: once a `get_currency` call succeeds (with a `Some` or `None`
value), any later `get_currency` call for the same identifier on the
resulting cache — under any client and any version argument — returns the
identical value, records zero remote descriptor reads, and leaves the
cache unchanged. -/
theorem c6_successful_resolution_memoized (client client2 : Client)
    (currencies : CoinCacheMap) (coin : TypeTag) (version version2 : Option Nat)
    (v : Option Currency)
    (h : (CoinCache.get_currency client currencies coin version).result = Except.ok v) :
    (CoinCache.get_currency client2
        (CoinCache.get_currency client currencies coin version).cache coin
        version2).result = Except.ok v ∧
      remoteReadCount (CoinCache.get_currency client2
        (CoinCache.get_currency client currencies coin version).cache coin
        version2).events = 0 ∧
      (CoinCache.get_currency client2
        (CoinCache.get_currency client currencies coin version).cache coin
        version2).cache =
        (CoinCache.get_currency client currencies coin version).cache := by
  by_cases hnat : coin = native_coin_tag
  · have hv : some native_coin = v := by
      simp [CoinCache.get_currency, hnat] at h
      exact h
    refine ⟨?_, ?_, ?_⟩ <;>
      simp [CoinCache.get_currency, hnat, remoteReadCount, ← hv]
  · cases hc : cacheGet currencies coin with
    | some c =>
      have hv : c = v := by
        simp [CoinCache.get_currency, hnat, hc] at h
        exact h
      subst hv
      refine ⟨?_, ?_, ?_⟩ <;>
        simp [CoinCache.get_currency, hnat, hc, remoteReadCount, Event.isRemoteRead]
    | none =>
      rcases hi : CoinCache.get_currency_inner client coin version with ⟨res, reads⟩
      cases res with
      | error e => simp [CoinCache.get_currency, hnat, hc, hi] at h
      | ok v' =>
        have hv : v' = v := by
          simp [CoinCache.get_currency, hnat, hc, hi] at h
          exact h
        subst hv
        refine ⟨?_, ?_, ?_⟩ <;>
          simp [CoinCache.get_currency, hnat, hc, hi, cacheGet_insert_self,
            remoteReadCount, Event.isRemoteRead]

/-- Witness for C6: a successful resolution at a concrete client, replayed
against a client whose every remote call fails. -/
theorem c6_successful_resolution_memoized_witness :
    (CoinCache.get_currency clientCoinInfo [] coinA (some 5)).result =
        Except.ok (some
          { symbol := "AC"
            decimals := 3
            metadata := some { move_type := "0x1::Coin::CoinInfo<0x2::coin::A>" } }) ∧
      ((CoinCache.get_currency clientUnavailable
          (CoinCache.get_currency clientCoinInfo [] coinA (some 5)).cache coinA
          none).result =
        Except.ok (some
          { symbol := "AC"
            decimals := 3
            metadata := some { move_type := "0x1::Coin::CoinInfo<0x2::coin::A>" } }) ∧
      remoteReadCount (CoinCache.get_currency clientUnavailable
        (CoinCache.get_currency clientCoinInfo [] coinA (some 5)).cache coinA
        none).events = 0 ∧
      (CoinCache.get_currency clientUnavailable
        (CoinCache.get_currency clientCoinInfo [] coinA (some 5)).cache coinA
        none).cache =
        (CoinCache.get_currency clientCoinInfo [] coinA (some 5)).cache) :=
  ⟨by decide,
    c6_successful_resolution_memoized clientCoinInfo clientUnavailable [] coinA
      (some 5) none
      (some
        { symbol := "AC"
          decimals := 3
          metadata := some { move_type := "0x1::Coin::CoinInfo<0x2::coin::A>" } })
      (by decide)⟩

/-- The per-resource extraction of `coinStoreBalances` yields a given
entry exactly when the first generic parameter is the entry's coin and the
payload parses to the entry's balance. -/
theorem coinStoreEntry_eq (r : AccountResource) (coin : TypeTag) (balance : Balance) :
    ((match r.resource_type.type_params.first with
      | some coin_type =>
        match parseBalance r.data with
        | some b => some (coin_type, b)
        | none => none
      | none => none) = some (coin, balance)) ↔
      (r.resource_type.type_params.first = some coin ∧
        parseBalance r.data = some balance) := by
  cases h1 : r.resource_type.type_params.first with
  | none => simp
  | some ct =>
    cases h2 : parseBalance r.data with
    | none => simp
    | some b => simp [Prod.ext_iff, and_assoc]

/-- C2 counterexample: a coin-store resource whose type carries two
generic parameters is kept (keyed by its first parameter), not dropped —
the claim's "resources with multiple generic parameters are dropped" fails
on this input. -/
theorem c2_counterexample_multi_param_kept :
    get_balances clientMultiStore 7 0 = Except.ok [(TypeTag.u8, { value := 5 })] ∧
      get_balances clientMultiStore 7 0 ≠ Except.ok [] := by
  constructor
  · decide
  · decide

/-- An entry is among the coin-store entries exactly when some resource
matches the coin-store path, has the entry's coin as first generic
parameter, and parses to the entry's balance. -/
theorem mem_coinStoreEntries (resources : List AccountResource) (coin : TypeTag)
    (balance : Balance) :
    (coin, balance) ∈ coinStoreEntries resources ↔
      ∃ r, r ∈ resources ∧
        ((r.resource_type.address == 1 &&
          r.resource_type.module == coin_identifier &&
          r.resource_type.name == coin_store_identifier) = true ∧
        r.resource_type.type_params.first = some coin ∧
        parseBalance r.data = some balance) := by
  rw [coinStoreEntries]
  simp only [List.mem_filterMap, List.mem_filter]
  constructor
  · rintro ⟨r, ⟨hr, hpath⟩, hf⟩
    rcases (coinStoreEntry_eq r coin balance).mp hf with ⟨h4, h5⟩
    exact ⟨r, hr, hpath, h4, h5⟩
  · rintro ⟨r, hr, hpath, h4, h5⟩
    exact ⟨r, ⟨hr, hpath⟩, (coinStoreEntry_eq r coin balance).mpr ⟨h4, h5⟩⟩

/-- Removing bindings of a different key does not change a key lookup. -/
theorem find?_key_filter (m : List (TypeTag × Balance)) (k k' : TypeTag)
    (hne : (k' == k) = false) :
    (m.filter (fun p => !(p.1 == k'))).find? (fun p => p.1 == k) =
      m.find? (fun p => p.1 == k) := by
  induction m with
  | nil => rfl
  | cons hd t ih =>
    by_cases h1 : (hd.1 == k') = true
    · have h2 : (hd.1 == k) = false := by
        have e1 : hd.1 = k' := beq_iff_eq.mp h1
        rw [e1]
        exact hne
      simp [List.filter_cons, h1, List.find?_cons, h2, ih]
    · have h1f : (hd.1 == k') = false := Bool.eq_false_iff.mpr h1
      by_cases h2 : (hd.1 == k) = true
      · simp [List.filter_cons, h1f, List.find?_cons, h2]
      · have h2f : (hd.1 == k) = false := Bool.eq_false_iff.mpr h2
        simp [List.filter_cons, h1f, List.find?_cons, h2f, ih]

/-- Folding inserts over entries: the binding of a key is the LAST entry
with that key, falling back to the accumulator. -/
theorem balancesGet_foldl (l : List (TypeTag × Balance)) (coin : TypeTag) :
    ∀ m : List (TypeTag × Balance),
      balancesGet (l.foldl (fun acc p => balancesInsert acc p.1 p.2) m) coin =
        ((l.reverse.find? (fun p => p.1 == coin)).map Prod.snd).or
          (balancesGet m coin) := by
  induction l with
  | nil => intro m; simp
  | cons hd t ih =>
    intro m
    rw [List.foldl_cons, ih, List.reverse_cons, List.find?_append]
    cases hf : t.reverse.find? (fun p => p.1 == coin) with
    | some p => simp [hf]
    | none =>
      by_cases hk : (hd.1 == coin) = true
      · simp [balancesGet, balancesInsert, List.find?_cons, hk, hf]
      · have hkf : (hd.1 == coin) = false := Bool.eq_false_iff.mpr hk
        simp [balancesGet, balancesInsert, List.find?_cons, hkf, hf,
          find?_key_filter m coin hd.1 hkf]

/-- In the collected map, the binding of a key is the last entry with
that key (later inserts overwrite earlier ones). -/
theorem balancesGet_collect (l : List (TypeTag × Balance)) (coin : TypeTag) :
    balancesGet (collectBalances l) coin =
      (l.reverse.find? (fun p => p.1 == coin)).map Prod.snd := by
  rw [collectBalances, balancesGet_foldl]
  simp [balancesGet]

/-- Every pair in an insert-fold comes from the accumulator or the
inserted entries. -/
theorem mem_foldl_balancesInsert (l : List (TypeTag × Balance))
    (q : TypeTag × Balance) :
    ∀ m : List (TypeTag × Balance),
      q ∈ l.foldl (fun acc p => balancesInsert acc p.1 p.2) m → q ∈ m ∨ q ∈ l := by
  induction l with
  | nil => intro m hm; exact Or.inl hm
  | cons hd t ih =>
    intro m hm
    rw [List.foldl_cons] at hm
    rcases ih (balancesInsert m hd.1 hd.2) hm with h1 | h1
    · rcases List.mem_cons.mp h1 with h2 | h2
      · right
        rw [h2]
        exact List.mem_cons_self _ _
      · exact Or.inl (List.mem_of_mem_filter h2)
    · exact Or.inr (List.mem_cons_of_mem hd h1)

/-- Every binding of the collected map is one of the collected entries. -/
theorem mem_collectBalances (l : List (TypeTag × Balance)) (q : TypeTag × Balance)
    (h : q ∈ collectBalances l) : q ∈ l := by
  rcases mem_foldl_balancesInsert l q [] h with h1 | h1
  · cases h1
  · exact h1

/-- C2 (amended): for every resource list returned by the ledger
collaborator, `get_balances` keeps a resource only if its type path is the
coin-store schema and it carries at least one generic type parameter,
using the FIRST parameter as the coin type (resources with several
parameters are kept, not dropped); zero-parameter, non-matching-path and
unparsable-payload resources are dropped; and the kept entries are
collected into a map keyed by coin type, a later resource with the same
first parameter overwriting an earlier one, so the final binding of a coin
type is the last matching resource's parsed balance and a coin type is
bound iff some kept resource yields it. -/
theorem c2_amended_coin_store_filter (client : Client) (address version : Nat)
    (resources : List AccountResource) (coin : TypeTag) (balance : Balance)
    (h : client.account_resources address version = .ok resources) :
    get_balances client address version = .ok (coinStoreBalances resources) ∧
      ((coin, balance) ∈ coinStoreEntries resources ↔
        (resources.any fun r =>
          r.resource_type.address == 1 &&
          r.resource_type.module == coin_identifier &&
          r.resource_type.name == coin_store_identifier &&
          (r.resource_type.type_params.first == some coin &&
            parseBalance r.data == some balance)) = true) ∧
      balancesGet (coinStoreBalances resources) coin =
        ((coinStoreEntries resources).reverse.find? (fun p => p.1 == coin)).map
          Prod.snd ∧
      ((coin, balance) ∈ coinStoreBalances resources →
        (coin, balance) ∈ coinStoreEntries resources) ∧
      (balancesGet (coinStoreBalances resources) coin = none ↔
        (resources.any fun r =>
          r.resource_type.address == 1 &&
          r.resource_type.module == coin_identifier &&
          r.resource_type.name == coin_store_identifier &&
          (r.resource_type.type_params.first == some coin &&
            (parseBalance r.data).isSome)) = false) := by
  refine ⟨by simp [get_balances, h], ?_, balancesGet_collect _ coin,
    fun hm => mem_collectBalances _ _ hm, ?_⟩
  · simp only [mem_coinStoreEntries, List.any_eq_true, Bool.and_eq_true, beq_iff_eq]
  · rw [coinStoreBalances, balancesGet_collect]
    constructor
    · intro hnone
      by_contra hne
      have hany : (resources.any fun r =>
          r.resource_type.address == 1 &&
          r.resource_type.module == coin_identifier &&
          r.resource_type.name == coin_store_identifier &&
          (r.resource_type.type_params.first == some coin &&
            (parseBalance r.data).isSome)) = true := by
        cases hb : (resources.any fun r =>
            r.resource_type.address == 1 &&
            r.resource_type.module == coin_identifier &&
            r.resource_type.name == coin_store_identifier &&
            (r.resource_type.type_params.first == some coin &&
              (parseBalance r.data).isSome))
        · exact absurd hb hne
        · rfl
      rcases List.any_eq_true.mp hany with ⟨r, hr, hcond⟩
      simp only [Bool.and_eq_true, beq_iff_eq] at hcond
      rcases hcond with ⟨hpath, hfirst, hsome⟩
      rcases Option.isSome_iff_exists.mp hsome with ⟨b, hb⟩
      have hmem : (coin, b) ∈ coinStoreEntries resources :=
        (mem_coinStoreEntries resources coin b).mpr
          ⟨r, hr, by simp [Bool.and_eq_true, beq_iff_eq, hpath], hfirst, hb⟩
      have hf := List.find?_eq_none.mp (Option.map_eq_none'.mp hnone) (coin, b)
        (List.mem_reverse.mpr hmem)
      simp at hf
    · intro hfalse
      rw [Option.map_eq_none', List.find?_eq_none]
      intro p hp hpred
      have hkey : p.1 = coin := beq_iff_eq.mp hpred
      have hp2 : (coin, p.2) ∈ coinStoreEntries resources := by
        rw [← hkey]
        exact List.mem_reverse.mp hp
      rcases (mem_coinStoreEntries resources coin p.2).mp hp2 with
        ⟨r, hr, hpath, hfirst, hparse⟩
      have hany : (resources.any fun r =>
          r.resource_type.address == 1 &&
          r.resource_type.module == coin_identifier &&
          r.resource_type.name == coin_store_identifier &&
          (r.resource_type.type_params.first == some coin &&
            (parseBalance r.data).isSome)) = true := by
        refine List.any_eq_true.mpr ⟨r, hr, ?_⟩
        simp only [Bool.and_eq_true, beq_iff_eq] at hpath ⊢
        exact ⟨hpath, hfirst, by rw [hparse]; rfl⟩
      rw [hfalse] at hany
      cases hany

/-- Witness for C2 (amended) at two coin-store resources sharing a first
generic parameter: both are kept as entries and the later one's balance
wins in the collected map. -/
theorem c2_amended_coin_store_filter_witness :
    balancesGet (coinStoreBalances [storeResourceMulti, storeResourceMulti2])
        TypeTag.u8 = some { value := 9 } ∧
      (get_balances clientTwoStores 7 0 =
          .ok (coinStoreBalances [storeResourceMulti, storeResourceMulti2]) ∧
        ((TypeTag.u8, ({ value := 9 } : Balance)) ∈
            coinStoreEntries [storeResourceMulti, storeResourceMulti2] ↔
          ([storeResourceMulti, storeResourceMulti2].any fun r =>
            r.resource_type.address == 1 &&
            r.resource_type.module == coin_identifier &&
            r.resource_type.name == coin_store_identifier &&
            (r.resource_type.type_params.first == some TypeTag.u8 &&
              parseBalance r.data == some { value := 9 })) = true) ∧
        balancesGet (coinStoreBalances [storeResourceMulti, storeResourceMulti2])
            TypeTag.u8 =
          ((coinStoreEntries [storeResourceMulti, storeResourceMulti2]).reverse.find?
            (fun p => p.1 == TypeTag.u8)).map Prod.snd ∧
        ((TypeTag.u8, ({ value := 9 } : Balance)) ∈
            coinStoreBalances [storeResourceMulti, storeResourceMulti2] →
          (TypeTag.u8, ({ value := 9 } : Balance)) ∈
            coinStoreEntries [storeResourceMulti, storeResourceMulti2]) ∧
        (balancesGet (coinStoreBalances [storeResourceMulti, storeResourceMulti2])
            TypeTag.u8 = none ↔
          ([storeResourceMulti, storeResourceMulti2].any fun r =>
            r.resource_type.address == 1 &&
            r.resource_type.module == coin_identifier &&
            r.resource_type.name == coin_store_identifier &&
            (r.resource_type.type_params.first == some TypeTag.u8 &&
              (parseBalance r.data).isSome)) = false)) :=
  ⟨by decide,
    c2_amended_coin_store_filter clientTwoStores 7 0
      [storeResourceMulti, storeResourceMulti2] TypeTag.u8 { value := 9 } rfl⟩

/-- Every amount surviving the filter/zero-fill stage has a requested
currency. -/
theorem filterAmounts_currency_mem (requested : List Currency) (amounts : List Amount)
    (a : Amount) (ha : a ∈ filterAmounts requested amounts) : a.currency ∈ requested := by
  simp only [filterAmounts] at ha
  rcases List.mem_append.mp ha with h | h
  · have hc := (List.mem_filter.mp h).2
    have : a.currency ∈ requested.dedup := by simpa using hc
    exact List.mem_dedup.mp this
  · rcases List.mem_map.mp h with ⟨c, hc, rfl⟩
    exact List.mem_dedup.mp (List.mem_filter.mp hc).1

/-- Every requested currency has at least one entry after the
filter/zero-fill stage. -/
theorem filterAmounts_exists_entry (requested : List Currency) (amounts : List Amount)
    (cur : Currency) (h : cur ∈ requested) :
    ∃ a ∈ filterAmounts requested amounts, a.currency = cur := by
  by_cases hk : ((amounts.filter (fun am => (requested.dedup).contains am.currency)).any
      (fun am => am.currency == cur)) = true
  · rcases List.any_eq_true.mp hk with ⟨am, ham, heq⟩
    refine ⟨am, ?_, by simpa using heq⟩
    simp only [filterAmounts]
    exact List.mem_append.mpr (Or.inl ham)
  · refine ⟨{ value := Nat.repr 0, currency := cur }, ?_, rfl⟩
    simp only [filterAmounts]
    refine List.mem_append.mpr (Or.inr ?_)
    refine List.mem_map.mpr ⟨cur, ?_, rfl⟩
    refine List.mem_filter.mpr ⟨List.mem_dedup.mpr h, ?_⟩
    have hk' : ((amounts.filter (fun am => (requested.dedup).contains am.currency)).any
        (fun am => am.currency == cur)) = false := Bool.eq_false_iff.mpr hk
    rw [hk']
    rfl

/-- A list with pairwise-distinct currencies has at most one entry of any
given currency. -/
theorem countP_le_one_of_pairwise (l : List Amount) (cur : Currency)
    (h : l.Pairwise (fun a b => a.currency ≠ b.currency)) :
    l.countP (fun a => a.currency == cur) ≤ 1 := by
  induction l with
  | nil => simp
  | cons a t ih =>
    rcases List.pairwise_cons.mp h with ⟨ha, ht⟩
    by_cases hc : (a.currency == cur) = true
    · have hz : t.countP (fun b => b.currency == cur) = 0 := by
        refine List.countP_eq_zero.mpr ?_
        intro b hb
        have := ha b hb
        simp only [beq_iff_eq] at hc ⊢
        rw [← hc]
        intro hbb
        exact this hbb.symm
      simp [List.countP_cons, hc, hz]
    · have hcf : (a.currency == cur) = false := Bool.eq_false_iff.mpr hc
      simp [List.countP_cons, hcf]
      exact ih ht

/-- A requested currency matching no amount gets exactly one entry, the
appended zero-value amount. -/
theorem filterAmounts_zero_fill (requested : List Currency) (amounts : List Amount)
    (cur : Currency) (hr : cur ∈ requested)
    (hnone : ∀ a ∈ amounts, a.currency ≠ cur) :
    (filterAmounts requested amounts).countP (fun a => a.currency == cur) = 1 ∧
      ({ value := Nat.repr 0, currency := cur } : Amount) ∈ filterAmounts requested amounts := by
  have hkept : ∀ a ∈ amounts.filter (fun am => (requested.dedup).contains am.currency),
      ¬(a.currency == cur) = true := by
    intro a ha
    have := hnone a (List.mem_filter.mp ha).1
    simp [this]
  have hany : ((amounts.filter (fun am => (requested.dedup).contains am.currency)).any
      (fun am => am.currency == cur)) = false := by
    rw [Bool.eq_false_iff]
    intro hc
    rcases List.any_eq_true.mp hc with ⟨am, ham, heq⟩
    exact hkept am ham heq
  have hremaining : cur ∈ (requested.dedup).filter
      (fun c => !((amounts.filter (fun am => (requested.dedup).contains am.currency)).any
        (fun am => am.currency == c))) := by
    refine List.mem_filter.mpr ⟨List.mem_dedup.mpr hr, ?_⟩
    rw [hany]
    rfl
  have hnodup : ((requested.dedup).filter
      (fun c => !((amounts.filter (fun am => (requested.dedup).contains am.currency)).any
        (fun am => am.currency == c)))).Nodup :=
    (List.nodup_dedup requested).filter _
  constructor
  · simp only [filterAmounts]
    rw [List.countP_append]
    have h1 : (amounts.filter
        (fun am => (requested.dedup).contains am.currency)).countP
          (fun a => a.currency == cur) = 0 := List.countP_eq_zero.mpr hkept
    have h2 : (((requested.dedup).filter
        (fun c => !((amounts.filter (fun am => (requested.dedup).contains am.currency)).any
          (fun am => am.currency == c)))).map
        (fun currency => ({ value := Nat.repr 0, currency := currency } : Amount))).countP
          (fun a => a.currency == cur) = 1 := by
      rw [List.countP_map]
      have : (fun a => a.currency == cur) ∘
          (fun currency => ({ value := Nat.repr 0, currency := currency } : Amount)) =
          (fun c => c == cur) := rfl
      rw [this]
      exact List.count_eq_one_of_mem hnodup hremaining
    rw [h1, h2]
  · simp only [filterAmounts]
    exact List.mem_append.mpr (Or.inr (List.mem_map.mpr ⟨cur, hremaining, rfl⟩))

/-- When the looked-up amounts have pairwise-distinct currencies, the
filter/zero-fill stage emits exactly one entry per requested currency. -/
theorem filterAmounts_pairwise_unique (requested : List Currency) (amounts : List Amount)
    (cur : Currency) (hr : cur ∈ requested)
    (hpw : amounts.Pairwise (fun a b => a.currency ≠ b.currency)) :
    (filterAmounts requested amounts).countP (fun a => a.currency == cur) = 1 := by
  have hpwk : (amounts.filter (fun am => (requested.dedup).contains am.currency)).Pairwise
      (fun a b => a.currency ≠ b.currency) :=
    hpw.sublist (List.filter_sublist amounts)
  by_cases hk : ((amounts.filter (fun am => (requested.dedup).contains am.currency)).any
      (fun am => am.currency == cur)) = true
  · have hpos : 0 < (amounts.filter
        (fun am => (requested.dedup).contains am.currency)).countP
          (fun a => a.currency == cur) := by
      rcases List.any_eq_true.mp hk with ⟨am, ham, heq⟩
      exact List.countP_pos_iff.mpr ⟨am, ham, heq⟩
    have h1 : (amounts.filter
        (fun am => (requested.dedup).contains am.currency)).countP
          (fun a => a.currency == cur) = 1 :=
      le_antisymm (countP_le_one_of_pairwise _ cur hpwk) hpos
    have hnot : cur ∉ (requested.dedup).filter
        (fun c => !((amounts.filter (fun am => (requested.dedup).contains am.currency)).any
          (fun am => am.currency == c))) := by
      intro hmem
      have hp := (List.mem_filter.mp hmem).2
      rw [hk] at hp
      cases hp
    have h2 : ((((requested.dedup).filter
        (fun c => !((amounts.filter (fun am => (requested.dedup).contains am.currency)).any
          (fun am => am.currency == c)))).map
        (fun currency => ({ value := Nat.repr 0, currency := currency } : Amount))).countP
          (fun a => a.currency == cur)) = 0 := by
      rw [List.countP_map]
      have hcomp : (fun a => a.currency == cur) ∘
          (fun currency => ({ value := Nat.repr 0, currency := currency } : Amount)) =
          (fun c => c == cur) := rfl
      rw [hcomp]
      exact List.count_eq_zero.mpr hnot
    simp only [filterAmounts]
    rw [List.countP_append, h1, h2]
  · have hany : ((amounts.filter (fun am => (requested.dedup).contains am.currency)).any
        (fun am => am.currency == cur)) = false := Bool.eq_false_iff.mpr hk
    have h1 : (amounts.filter
        (fun am => (requested.dedup).contains am.currency)).countP
          (fun a => a.currency == cur) = 0 := by
      refine List.countP_eq_zero.mpr ?_
      intro a ha hcontra
      exact hk (List.any_eq_true.mpr ⟨a, ha, hcontra⟩)
    have hremaining : cur ∈ (requested.dedup).filter
        (fun c => !((amounts.filter (fun am => (requested.dedup).contains am.currency)).any
          (fun am => am.currency == c))) := by
      refine List.mem_filter.mpr ⟨List.mem_dedup.mpr hr, ?_⟩
      rw [hany]
      rfl
    have hnodup : ((requested.dedup).filter
        (fun c => !((amounts.filter (fun am => (requested.dedup).contains am.currency)).any
          (fun am => am.currency == c)))).Nodup :=
      (List.nodup_dedup requested).filter _
    have h2 : ((((requested.dedup).filter
        (fun c => !((amounts.filter (fun am => (requested.dedup).contains am.currency)).any
          (fun am => am.currency == c)))).map
        (fun currency => ({ value := Nat.repr 0, currency := currency } : Amount))).countP
          (fun a => a.currency == cur)) = 1 := by
      rw [List.countP_map]
      have hcomp : (fun a => a.currency == cur) ∘
          (fun currency => ({ value := Nat.repr 0, currency := currency } : Amount)) =
          (fun c => c == cur) := rfl
      rw [hcomp]
      exact List.count_eq_one_of_mem hnodup hremaining
    simp only [filterAmounts]
    rw [List.countP_append, h1, h2]


/-- C1 counterexample: with two distinct coin types resolving to the same
cached currency and that currency requested, the projection returns two
entries for the one filter currency — the claimed "exactly one entry per
filter currency" fails on this input. -/
theorem c1_counterexample_duplicate_currencies :
    (convert_balances_to_amounts clientUnavailable dupCache (some [curC]) dupBalances 0).1 =
      Except.ok [{ value := "10", currency := curC }, { value := "7", currency := curC }] ∧
    ([{ value := "10", currency := curC }, { value := "7", currency := curC }] :
      List Amount).countP (fun a => a.currency == curC) = 2 := by
  constructor
  · decide
  · decide

/-- C1 (amended): when a currency filter is supplied and the projection
succeeds, every returned amount's currency is in the filter, every filter
currency has at least one returned entry, the output is exactly the
filter/zero-fill stage applied to the looked-up amounts, a filter currency
with no matching amount gets exactly one zero-value entry, and whenever
the looked-up amounts have pairwise-distinct currencies the output has
exactly one entry per filter currency; duplicates occur exactly when
several distinct coin types resolve to the same filter currency. -/
theorem c1_amended_filter_zero_fill (client : Client) (coin_cache : CoinCacheMap)
    (requested : List Currency) (balances : List (TypeTag × Balance))
    (balance_version : Nat) (out : List Amount) (cache' : CoinCacheMap)
    (amounts : List Amount) (cur : Currency)
    (h : convert_balances_to_amounts client coin_cache (some requested) balances
        balance_version = (.ok out, cache')) :
    (∀ a ∈ out, a.currency ∈ requested) ∧
      (cur ∈ requested → ∃ a ∈ out, a.currency = cur) ∧
      (lookupAmounts client balance_version balances coin_cache = (.ok amounts, cache') →
        out = filterAmounts requested amounts) ∧
      (cur ∈ requested → (∀ a ∈ amounts, a.currency ≠ cur) →
        (filterAmounts requested amounts).countP (fun a => a.currency == cur) = 1 ∧
          ({ value := Nat.repr 0, currency := cur } : Amount) ∈
            filterAmounts requested amounts) ∧
      (cur ∈ requested → amounts.Pairwise (fun a b => a.currency ≠ b.currency) →
        (filterAmounts requested amounts).countP (fun a => a.currency == cur) = 1) := by
  rcases hl : lookupAmounts client balance_version balances coin_cache with ⟨res, c0⟩
  cases res with
  | error e =>
    rw [convert_balances_to_amounts, hl] at h
    simp at h
  | ok amounts0 =>
    rw [convert_balances_to_amounts, hl] at h
    simp only [Prod.mk.injEq, Except.ok.injEq] at h
    rcases h with ⟨hout, hcache⟩
    refine ⟨?_, ?_, ?_, ?_, ?_⟩
    · intro a ha
      rw [← hout] at ha
      exact filterAmounts_currency_mem requested amounts0 a ha
    · intro hcur
      rw [← hout]
      exact filterAmounts_exists_entry requested amounts0 cur hcur
    · intro hl2
      simp only [Prod.mk.injEq, Except.ok.injEq] at hl2
      rw [← hout, hl2.1]
    · intro hcur hnone
      exact filterAmounts_zero_fill requested amounts cur hcur hnone
    · intro hcur hpw
      exact filterAmounts_pairwise_unique requested amounts cur hcur hpw

/-- Witness for C1 (amended) at a concrete cache and balance list. -/
theorem c1_amended_filter_zero_fill_witness :
    convert_balances_to_amounts clientUnavailable dupCache (some [curC]) dupBalances 0 =
        (Except.ok [{ value := "10", currency := curC }, { value := "7", currency := curC }],
          dupCache) ∧
      ((∀ a ∈ [({ value := "10", currency := curC } : Amount),
          { value := "7", currency := curC }], a.currency ∈ [curC]) ∧
        (curC ∈ [curC] → ∃ a ∈ [({ value := "10", currency := curC } : Amount),
          { value := "7", currency := curC }], a.currency = curC)) := by
  refine ⟨by decide, ?_⟩
  have h := c1_amended_filter_zero_fill clientUnavailable dupCache [curC] dupBalances 0
    [{ value := "10", currency := curC }, { value := "7", currency := curC }] dupCache
    [] curC (by decide)
  exact ⟨h.1, h.2.1⟩


end RosettaAccount
